import Mathlib

/-!
Verification development for the `bytepool` package of SermoDigital/golibs.

The package has two source files:

* `buffer.go` — a growable byte buffer (`Buffer`) with `Write`, `WriteTo`,
  `Truncate`, `Reset`, `Len` and the internal growth routine `grow`;
* `bytepool.go` — a size-class pool (`BytePool`) with `Init`, `Put`, `Get`,
  `Entries`, driven by a package-global usage estimator (`avg`, `stdOff`)
  and the bit-trick logarithms `log2Floor` / `log2Ceil`.

Go slices are modelled as a backing byte array (`data`, whose length is the
slice capacity), a visible length `len` and a nil flag; machine integers are
modelled as `Nat`/`Int` with explicit `% 2 ^ 32` where Go uses `uint32`.
Byte values are modelled as `Nat` (the pool never computes with them).
Operations that can panic in Go return `Option`.
-/

/-- A Go byte slice: `data` is the backing array (so `data.length` is the
capacity), `len` the visible slice length, `isNil` whether the slice is
literally `nil` (Go distinguishes `nil` from an empty non-nil slice, and
`grow` branches on `b.Buf == nil`). -/
structure GoSlice where
  data : List Nat
  len : Nat
  isNil : Bool
deriving DecidableEq

/-- Go `cap` of a slice. -/
def GoSlice.cap (s : GoSlice) : Nat := s.data.length

/-- `Buffer` from buffer.go: backing slice `Buf` and read cursor `off`.
The `ending` field models the `end` field that bytepool.go's `Put` assigns
(`el.end = el.off`); buffer.go's `Buffer` declares no such field — the two
files do not compile together as given — and nothing ever reads it.
The 64-byte `bootstrap` array is zero until `grow` first aliases `Buf` to it,
so it is represented by the constant `List.replicate 64 0` at its use site. -/
structure Buffer where
  Buf : GoSlice
  off : Nat
  ending : Nat
deriving DecidableEq

/-- A freshly allocated buffer over `make([]byte, n)`: `n` zero bytes,
`off = 0`, non-nil backing slice. -/
def mkFresh (n : Nat) : Buffer :=
  { Buf := { data := List.replicate n 0, len := n, isNil := false }, off := 0, ending := 0 }

/-- `NewBuffer(size int)`: `&Buffer{Buf: make([]byte, size)}`.
`make` with a negative size panics, hence `Option`. -/
def NewBuffer (size : Int) : Option Buffer :=
  if 0 ≤ size then some (mkFresh size.toNat) else none

/-- `Len()`: `len(b.Buf) - b.off` (a Go `int`, so it is modelled in `Int`). -/
def Buffer.Len (b : Buffer) : Int := (b.Buf.len : Int) - (b.off : Int)

/-- `Truncate(n)`: panics (`none`) when `n < 0 || n > len(b.Buf)`; when
`n == 0` it first resets `off`; the final `b.Buf = b.Buf[0 : b.off+n]`
itself panics when `b.off + n` exceeds the slice capacity. -/
def Buffer.Truncate (b : Buffer) (n : Int) : Option Buffer :=
  if n < 0 ∨ n > (b.Buf.len : Int) then none
  else
    let b1 := if n = 0 then { b with off := 0 } else b
    if (b1.off : Int) + n ≤ (b1.Buf.cap : Int) then
      some { b1 with Buf := { b1.Buf with len := b1.off + n.toNat } }
    else none

/-- `Reset()` is `Truncate(0)`, which never panics. -/
def Buffer.Reset (b : Buffer) : Buffer := (b.Truncate 0).getD b

/-- `copy(l[pos:], p)` into a backing array, for the in-bounds uses `Write`
makes of it (the caller passes `p` already clipped to the destination). -/
def writeBytes (l : List Nat) (pos : Nat) (p : List Nat) : List Nat :=
  l.take pos ++ p ++ l.drop (pos + p.length)

/-- `grow(n)` from buffer.go: normalizes an emptied buffer, then if
`len(b.Buf)+n > cap(b.Buf)` either (a) adopts the 64-byte bootstrap array
when `b.Buf == nil && n <= len(b.bootstrap)`, (b) slides the valid content
`[off, len)` down to offset 0 when `m+n <= cap(b.Buf)/2`, or (c) allocates
`2*cap(b.Buf) + n` fresh bytes and copies the valid content in; finally
reslices to `b.off + m + n` and returns the write position `b.off + m`. -/
def Buffer.grow (b : Buffer) (n : Nat) : Buffer × Nat :=
  let m := b.Buf.len - b.off
  let b := if m = 0 ∧ b.off ≠ 0 then b.Reset else b
  let b :=
    if b.Buf.len + n > b.Buf.cap then
      let newBuf : GoSlice :=
        if b.Buf.isNil = true ∧ n ≤ 64 then
          { data := List.replicate 64 0, len := 64, isNil := false }
        else if m + n ≤ b.Buf.cap / 2 then
          { data := (b.Buf.data.drop b.off).take m ++ b.Buf.data.drop m,
            len := m, isNil := b.Buf.isNil }
        else
          { data := (b.Buf.data.drop b.off).take m ++
              List.replicate (2 * b.Buf.cap + n - m) 0,
            len := 2 * b.Buf.cap + n, isNil := false }
      { b with Buf := newBuf, off := 0 }
    else b
  ({ b with Buf := { b.Buf with len := b.off + m + n } }, b.off + m)

/-- `Write(p)`: grows, then `copy(b.Buf[m:], p)`; returns the byte count
(the Go error result is always `nil`). -/
def Buffer.Write (b : Buffer) (p : List Nat) : Buffer × Nat :=
  let r := b.grow p.length
  let b1 := r.1
  let m := r.2
  let k := min (b1.Buf.len - m) p.length
  ({ b1 with Buf := { b1.Buf with data := writeBytes b1.Buf.data m (p.take k) } }, k)

/-- The two error values `WriteTo` can return: the sink's own error, or
`io.ErrShortWrite`. -/
inductive WErr where
  | sink : WErr
  | short : WErr
deriving DecidableEq

/-- The bytes `WriteTo` offers to the sink: `b.Buf[b.off:]`. -/
def Buffer.pending (b : Buffer) : List Nat := (b.Buf.data.take b.Buf.len).drop b.off

/-- `WriteTo(w)`: the sink is summarized by how many of the offered bytes its
`Write` reports accepted and whether it reports an error. Panics (`none`)
when the sink reports more than was offered; otherwise advances `off` by the
accepted count and returns it with the error (`sink` error wins, else
`short` when not everything was accepted). -/
def Buffer.WriteTo (b : Buffer) (accepted : Nat) (sinkErr : Bool) :
    Option (Buffer × Int × Option WErr) :=
  if b.off < b.Buf.len then
    let nBytes := b.Buf.len - b.off
    if accepted > nBytes then none
    else
      let b1 := { b with off := b.off + accepted }
      if sinkErr = true then some (b1, (accepted : Int), some WErr.sink)
      else if accepted ≠ nBytes then some (b1, (accepted : Int), some WErr.short)
      else some (b1, (accepted : Int), none)
  else some (b, 0, none)

/-- Go's `int(x)` conversion of a `float64`, on rationals: truncation toward
zero. -/
def goInt (q : ℚ) : Int := if 0 ≤ q then ⌊q⌋ else ⌈q⌉

/-- Modelled from the spec: the `ewma` package
(`github.com/SermoDigital/golibs/ewma`) is imported by bytepool.go but is not
under `src/`. The spec describes it as an exponentially-weighted moving
average of the released-buffer usage samples together with its standard
deviation. It is modelled with a fixed smoothing factor 1/2. -/
structure Ewma where
  Current : ℚ
  StdDev : ℚ
deriving DecidableEq

/-- Modelled from the spec: `ewma.NewEwma` starts the moving average empty. -/
def newEwma : Ewma := { Current := 0, StdDev := 0 }

/-- Modelled from the spec: `UpdateNow(sample)` moves the mean toward the
sample and the deviation estimate toward the sample's absolute deviation,
each with smoothing factor 1/2. -/
def Ewma.UpdateNow (e : Ewma) (sample : ℚ) : Ewma :=
  { Current := (e.Current + sample) / 2,
    StdDev := (e.StdDev + |sample - e.Current|) / 2 }

/-- The package-level mutable state of bytepool.go:
`var avg *ewma.Ewma` and `var stdOff float64`. It is shared by every
`BytePool` value in the process. -/
structure Globals where
  avg : Ewma
  stdOff : ℚ
deriving DecidableEq

/-- `BytePool`: the per-instance state — the buckets (`list_of_pools`) and
the retention ceiling (`maxSize`, a Go `int`). The drain ticker (wall-clock
concurrency) and the per-bucket mutexes are not represented. -/
structure BytePool where
  list_of_pools : List (List Buffer)
  maxSize : Int
deriving DecidableEq

/-- The De Bruijn table `multiplyDeBruijnBitPosition` from bytepool.go. -/
def multiplyDeBruijnBitPosition : List Nat :=
  [0, 9, 1, 10, 13, 21, 2, 29, 11, 14, 16, 18, 22, 25, 3, 30,
   8, 12, 20, 28, 15, 17, 24, 7, 19, 27, 23, 6, 26, 5, 4, 31]

/-- The five `v |= v >> k` smearing steps of `log2Floor` (`uint32`
or-shifts never overflow, so no reduction is needed). -/
def smear (v : Nat) : Nat :=
  let v := v ||| (v >>> 1)
  let v := v ||| (v >>> 2)
  let v := v ||| (v >>> 4)
  let v := v ||| (v >>> 8)
  v ||| (v >>> 16)

/-- `log2Floor(v uint32)`: smears, multiplies by `0x07C4ACDD` in `uint32`
arithmetic and indexes the De Bruijn table. -/
def log2Floor (v : Nat) : Nat :=
  multiplyDeBruijnBitPosition.getD (((smear v * 0x07C4ACDD) % 2 ^ 32) >>> 27) 0

/-- `log2Ceil(v uint32)`: `log2Floor(v)` plus one unless `v & (v-1) == 0`. -/
def log2Ceil (v : Nat) : Nat :=
  log2Floor v + (if v &&& (v - 1) = 0 then 0 else 1)

/-- `Init(drainPeriod, ewmaTime, maxSize uint32)`: replaces the package
globals (`avg = ewma.NewEwma(...)`, `stdOff = 1.5`) and builds the pool.
`drainPeriod`/`ewmaTime` only drive wall-clock behavior and are omitted.
The clamp to `math.MaxUint32` is kept although it can never fire. -/
def BytePool.Init (maxSize : Nat) : Globals × BytePool :=
  let maxSizeLog := log2Ceil (maxSize % 2 ^ 32)
  let m0 : Int := 2 ^ maxSizeLog - 1
  let m1 : Int := if m0 > 2 ^ 32 - 1 then 2 ^ 32 - 1 else m0
  ({ avg := newEwma, stdOff := (3 : ℚ) / 2 },
   { list_of_pools := List.replicate (maxSizeLog + 1) [], maxSize := m1 })

/-- The admission test of `Put`: the buffer is dropped when its capacity
exceeds `maxSize`, falls below the statistical lower bound
`int(avg.Current - stdOff*avg.StdDev)`, or is below 1. -/
def putRejects (g : Globals) (tp : BytePool) (c : Nat) : Prop :=
  (c : Int) > tp.maxSize ∨
  (c : Int) < goInt (g.avg.Current - g.stdOff * g.avg.StdDev) ∨
  c < 1

instance (g : Globals) (tp : BytePool) (c : Nat) : Decidable (putRejects g tp c) := by
  unfold putRejects
  infer_instance

/-- `Put(el)`: drop on `putRejects`; otherwise update the global estimator
with `el.off`, set `el.end = el.off; el.off = 0; el.Buf = el.Buf[:c]` and
append `el` to bucket `log2Floor(uint32(c))`. An out-of-range bucket index
(possible only after `UpdateMaxSize`) would panic, hence `Option`. -/
def BytePool.Put (g : Globals) (tp : BytePool) (el : Buffer) :
    Option (Globals × BytePool) :=
  let c := el.Buf.cap
  if putRejects g tp c then some (g, tp)
  else
    let g1 := { g with avg := g.avg.UpdateNow (el.off : ℚ) }
    let el1 := { el with ending := el.off, off := 0, Buf := { el.Buf with len := c } }
    let o := log2Floor (c % 2 ^ 32)
    if h : o < tp.list_of_pools.length then
      some (g1, { tp with
        list_of_pools := tp.list_of_pools.set o (tp.list_of_pools.get ⟨o, h⟩ ++ [el1]) })
    else none

/-- `Get()`: reads `size = int(avg.Current)`; outside `[1, maxSize]` it
returns `NewBuffer(size)` directly (which panics for a negative size);
otherwise it pops the last buffer of bucket `log2Ceil(uint32(size))`, or
allocates `NewBuffer(1 << o)` when the bucket is empty. -/
def BytePool.Get (g : Globals) (tp : BytePool) : Option (BytePool × Buffer) :=
  let size := goInt g.avg.Current
  if size < 1 ∨ size > tp.maxSize then
    (NewBuffer size).map fun b => (tp, b)
  else
    let o := log2Ceil (size.toNat % 2 ^ 32)
    if h : o < tp.list_of_pools.length then
      let p := tp.list_of_pools.get ⟨o, h⟩
      match p.getLast? with
      | some x =>
          some ({ tp with list_of_pools := tp.list_of_pools.set o p.dropLast }, x)
      | none => (NewBuffer ((2 ^ o : Nat) : Int)).map fun b => (tp, b)
    else none

/-- `Entries()`: total number of buffers resident across the buckets. -/
def BytePool.Entries (tp : BytePool) : Nat := (tp.list_of_pools.map List.length).sum

/-- The buffer operations of claim C9. A `writeTo` is summarized by the
count its sink accepts and whether the sink errors. -/
inductive BufOp where
  | write : List Nat → BufOp
  | writeTo : Nat → Bool → BufOp
  | truncate : Int → BufOp
  | reset : BufOp
deriving DecidableEq

/-- One buffer operation; `none` is a Go panic. -/
def stepOp (b : Buffer) : BufOp → Option Buffer
  | .write p => some (b.Write p).1
  | .writeTo acc e => (b.WriteTo acc e).map (·.1)
  | .truncate n => b.Truncate n
  | .reset => some b.Reset

/-- A sequence of buffer operations, stopping at the first panic. -/
def runOps (b : Buffer) : List BufOp → Option Buffer
  | [] => some b
  | op :: ops => (stepOp b op).bind (fun b1 => runOps b1 ops)

/-- The slice well-formedness invariant of the spec's data model:
`0 ≤ off ≤ len(data) ≤ capacity(data)`, and a nil slice has capacity 0. -/
def WF (b : Buffer) : Prop :=
  b.off ≤ b.Buf.len ∧ b.Buf.len ≤ b.Buf.data.length ∧
    (b.Buf.isNil = true → b.Buf.data.length = 0)

instance (b : Buffer) : Decidable (WF b) := by
  unfold WF
  infer_instance

/-! ### Concrete states used by the scenario theorems -/

/-- The globals `Init(0, t, 1024)` installs (spec scenario: `maxCapacity = 1023`). -/
def g1024 : Globals := (BytePool.Init 1024).1

/-- The pool `Init(0, t, 1024)` builds. -/
def tp1024 : BytePool := (BytePool.Init 1024).2

/-- A second, separately initialized pool (`Init(0, t, 2048)`). -/
def tp2048 : BytePool := (BytePool.Init 2048).2

/-- A globals state whose estimator mean is 100 (deviation 0). -/
def c3gX : Globals := { avg := { Current := 100, StdDev := 0 }, stdOff := 3 / 2 }

/-- A fresh capacity-10 buffer. -/
def c3el : Buffer :=
  { Buf := { data := List.replicate 10 0, len := 10, isNil := false }, off := 0, ending := 0 }

/-- A globals state whose estimator mean is 4 (deviation 0). -/
def c7gX : Globals := { avg := { Current := 4, StdDev := 0 }, stdOff := 3 / 2 }

/-- A fully drained capacity-4 buffer holding the stale bytes `[9,9,9,9]`. -/
def c7el : Buffer :=
  { Buf := { data := [9, 9, 9, 9], len := 4, isNil := false }, off := 4, ending := 0 }

/-- What `Put` turns `c7el` into before pushing it onto bucket 2. -/
def c7el1 : Buffer :=
  { Buf := { data := [9, 9, 9, 9], len := 4, isNil := false }, off := 0, ending := 4 }

/-- The pool state after `Put c7gX tp1024 c7el`. -/
def c7tpAfter : BytePool :=
  { list_of_pools := [[], [], [c7el1], [], [], [], [], [], [], [], []], maxSize := 1023 }

/-- A fully drained capacity-8 buffer. -/
def c8el : Buffer :=
  { Buf := { data := List.replicate 8 0, len := 8, isNil := false }, off := 8, ending := 0 }

/-- What `Put` turns `c8el` into before pushing it onto bucket 3. -/
def c8el1 : Buffer :=
  { Buf := { data := List.replicate 8 0, len := 8, isNil := false }, off := 0, ending := 8 }

/-- The globals after `Put g1024 tp1024 c8el` (the estimator moved to 4). -/
def c8gAfter : Globals := { avg := { Current := 4, StdDev := 4 }, stdOff := 3 / 2 }

/-- The pool state after `Put g1024 tp1024 c8el`. -/
def c8tpAfter : BytePool :=
  { list_of_pools := [[], [], [], [c8el1], [], [], [], [], [], [], []], maxSize := 1023 }

/-- A buffer whose slice length 10 is strictly below its capacity 20. -/
def c6buf : Buffer :=
  { Buf := { data := List.replicate 20 0, len := 10, isNil := false }, off := 0, ending := 0 }

/-- The cursor mutation `Put` applies to an admitted buffer:
`el.end = el.off; el.off = 0; el.Buf = el.Buf[:c]`. -/
def putReset (el : Buffer) : Buffer :=
  { el with ending := el.off, off := 0, Buf := { el.Buf with len := el.Buf.cap } }

/-- The buffer `NewBuffer 0` yields — what `Get` returns on a fresh pool. -/
def b0val : Buffer := mkFresh 0

/-- `b0val` after writing 100 bytes of value 7 into it. -/
def c1bw : Buffer :=
  { Buf := { data := List.replicate 100 7, len := 100, isNil := false }, off := 0, ending := 0 }

/-- A buffer in mid-use: capacity 10, slice length 8, read offset 7
(one valid byte), exercising the slide-down branch of `grow`. -/
def c4b : Buffer :=
  { Buf := { data := [0, 1, 2, 3, 4, 5, 6, 7, 8, 9], len := 8, isNil := false }, off := 7, ending := 0 }

/-- `c6buf` after `Truncate 8`. -/
def c6buf8 : Buffer :=
  { Buf := { data := List.replicate 20 0, len := 8, isNil := false }, off := 0, ending := 0 }

/-- A concrete operation sequence exercising every buffer operation. -/
def c9ops : List BufOp :=
  [BufOp.write [1, 2, 3], BufOp.writeTo 2 false, BufOp.truncate 1, BufOp.reset, BufOp.write [5, 6]]

/-- The buffer `c9ops` produces from `mkFresh 4`. -/
def c9final : Buffer :=
  { Buf := { data := [5, 6, 0, 0, 1, 2, 3, 0, 0, 0, 0], len := 2, isNil := false }, off := 0, ending := 0 }

/-! ### Correctness of the De Bruijn logarithms (claim C10) -/

theorem lor_lt_pow {x y n : Nat} (hx : x < 2 ^ n) (hy : y < 2 ^ n) : x ||| y < 2 ^ n :=
  Nat.bitwise_lt_two_pow hx hy

theorem shiftRight_lt_pow {x n : Nat} (i : Nat) (hx : x < 2 ^ n) : x >>> i < 2 ^ n := by
  rw [Nat.shiftRight_eq_div_pow]
  exact lt_of_le_of_lt (Nat.div_le_self x (2 ^ i)) hx

theorem smear_lt_pow {v n : Nat} (hv : v < 2 ^ n) : smear v < 2 ^ n := by
  unfold smear
  have h1 := lor_lt_pow hv (shiftRight_lt_pow 1 hv)
  have h2 := lor_lt_pow h1 (shiftRight_lt_pow 2 h1)
  have h3 := lor_lt_pow h2 (shiftRight_lt_pow 4 h2)
  have h4 := lor_lt_pow h3 (shiftRight_lt_pow 8 h3)
  exact lor_lt_pow h4 (shiftRight_lt_pow 16 h4)

theorem cov_step {x v : Nat} {c : Nat} (s : Nat) (hs : s ≤ c)
    (hx : ∀ j d, d < c → v.testBit (j + d) = true → x.testBit j = true) :
    ∀ j d, d < c + s → v.testBit (j + d) = true → (x ||| x >>> s).testBit j = true := by
  intro j d hd hbit
  rw [Nat.testBit_lor]
  rcases Nat.lt_or_ge d c with h1 | h1
  · rw [hx j d h1 hbit]
    rfl
  · have h2 : (x >>> s).testBit j = true := by
      rw [Nat.testBit_shiftRight]
      have he : s + j + (d - s) = j + d := by omega
      exact hx (s + j) (d - s) (by omega) (by rw [he]; exact hbit)
    rw [h2]
    exact Bool.or_true _

theorem testBit_smear {v : Nat} (j d : Nat) (hd : d ≤ 31)
    (h : v.testBit (j + d) = true) : (smear v).testBit j = true := by
  have h0 : ∀ j d, d < 1 → v.testBit (j + d) = true → v.testBit j = true := by
    intro j d hd1 hb
    have hz : d = 0 := by omega
    subst hz
    simpa using hb
  have h1 := cov_step 1 (by omega) h0
  have h2 := cov_step 2 (by omega) h1
  have h3 := cov_step 4 (by omega) h2
  have h4 := cov_step 8 (by omega) h3
  have h5 := cov_step 16 (by omega) h4
  unfold smear
  exact h5 j d (by omega) h

theorem testBit_of_between {x i : Nat} (h1 : 2 ^ i ≤ x) (h2 : x < 2 ^ (i + 1)) :
    x.testBit i = true := by
  rw [Nat.testBit_to_div_mod]
  have hp : 2 ^ (i + 1) = 2 * 2 ^ i := by
    rw [Nat.pow_succ]
    ring
  have hdiv : x / 2 ^ i = 1 := Nat.div_eq_of_lt_le (by omega) (by omega)
  rw [hdiv]
  decide

theorem smear_eq {v : Nat} (h1 : 1 ≤ v) (h2 : v < 2 ^ 32) :
    smear v = 2 ^ (Nat.log2 v + 1) - 1 := by
  have hL : Nat.log2 v < 32 := (Nat.log2_lt (by omega)).2 h2
  apply Nat.eq_of_testBit_eq
  intro i
  rw [Nat.testBit_two_pow_sub_one]
  rcases Nat.lt_or_ge i (Nat.log2 v + 1) with hi | hi
  · have hbit : v.testBit (Nat.log2 v) = true :=
      testBit_of_between (Nat.log2_self_le (by omega)) Nat.lt_log2_self
    have hset : (smear v).testBit i = true := by
      apply testBit_smear i (Nat.log2 v - i) (by omega)
      have he : i + (Nat.log2 v - i) = Nat.log2 v := by omega
      rw [he]
      exact hbit
    rw [hset]
    simp [hi]
  · have hlt : smear v < 2 ^ i := by
      have hs := smear_lt_pow (n := Nat.log2 v + 1) (v := v) Nat.lt_log2_self
      exact lt_of_lt_of_le hs (Nat.pow_le_pow_right (by omega) hi)
    rw [Nat.testBit_eq_false_of_lt hlt]
    have hni : ¬ (i < Nat.log2 v + 1) := by omega
    simp [hni]

theorem deBruijn_table : ∀ L, L < 32 →
    multiplyDeBruijnBitPosition.getD ((((2 ^ (L + 1) - 1) * 0x07C4ACDD) % 2 ^ 32) >>> 27) 0 = L := by
  decide

theorem log2Floor_correct {v : Nat} (h1 : 1 ≤ v) (h2 : v < 2 ^ 32) :
    log2Floor v = Nat.log2 v := by
  have hL : Nat.log2 v < 32 := (Nat.log2_lt (by omega)).2 h2
  unfold log2Floor
  rw [smear_eq h1 h2]
  exact deBruijn_table (Nat.log2 v) hL

theorem two_pow_and_pred (k : Nat) : 2 ^ k &&& (2 ^ k - 1) = 0 := by
  apply Nat.eq_of_testBit_eq
  intro i
  rw [Nat.testBit_land, Nat.testBit_two_pow, Nat.testBit_two_pow_sub_one, Nat.zero_testBit]
  by_cases h : k = i
  · subst h
    simp
  · simp [h]

theorem and_pred_ne_zero {v : Nat} (h1 : 1 ≤ v) (hnp : v ≠ 2 ^ Nat.log2 v) :
    v &&& (v - 1) ≠ 0 := by
  intro h0
  have hL1 : 2 ^ Nat.log2 v ≤ v := Nat.log2_self_le (by omega)
  have hL2 : v < 2 ^ (Nat.log2 v + 1) := Nat.lt_log2_self
  have hb1 : v.testBit (Nat.log2 v) = true := testBit_of_between hL1 hL2
  have hb2 : (v - 1).testBit (Nat.log2 v) = true := testBit_of_between (by omega) (by omega)
  have hband : (v &&& (v - 1)).testBit (Nat.log2 v) = true := by
    rw [Nat.testBit_land, hb1, hb2]
    rfl
  rw [h0, Nat.zero_testBit] at hband
  exact Bool.false_ne_true hband

theorem log2Ceil_correct {v : Nat} (h1 : 1 ≤ v) (h2 : v < 2 ^ 32) :
    log2Ceil v = Nat.clog 2 v := by
  unfold log2Ceil
  by_cases hp : v = 2 ^ Nat.log2 v
  · have hz : v &&& (v - 1) = 0 := by
      rw [hp]
      exact two_pow_and_pred _
    rw [if_pos hz, log2Floor_correct h1 h2]
    conv_rhs => rw [hp]
    rw [Nat.clog_pow _ _ (by norm_num)]
    omega
  · have hz : v &&& (v - 1) ≠ 0 := and_pred_ne_zero h1 hp
    rw [if_neg hz, log2Floor_correct h1 h2]
    have ha : Nat.clog 2 v ≤ Nat.log2 v + 1 :=
      (Nat.le_pow_iff_clog_le (by norm_num)).1 (le_of_lt Nat.lt_log2_self)
    have hb : ¬ (Nat.clog 2 v ≤ Nat.log2 v) := by
      intro hc
      have hup : v ≤ 2 ^ Nat.log2 v := (Nat.le_pow_iff_clog_le (by norm_num)).2 hc
      have hlo : 2 ^ Nat.log2 v ≤ v := Nat.log2_self_le (by omega)
      exact hp (le_antisymm hup hlo)
    omega

/-- C10: for every 32-bit value `v` with `1 ≤ v < 2^32`, `log2Floor v` is the
floor logarithm `Nat.log 2 v` and `log2Ceil v` is the ceiling logarithm
`Nat.clog 2 v`; these are the functions `Get`, `Put` and `Init` use for
bucket indices. -/
theorem c10_log2_bit_tricks (v : Nat) (h1 : 1 ≤ v) (h2 : v < 2 ^ 32) :
    log2Floor v = Nat.log 2 v ∧ log2Ceil v = Nat.clog 2 v := by
  constructor
  · rw [log2Floor_correct h1 h2, Nat.log2_eq_log_two]
  · exact log2Ceil_correct h1 h2

/-- Witness for C10 at `v = 1000000`. -/
theorem c10_witness :
    1 ≤ 1000000 ∧ 1000000 < 2 ^ 32 ∧
      (log2Floor 1000000 = Nat.log 2 1000000 ∧ log2Ceil 1000000 = Nat.clog 2 1000000) :=
  ⟨by decide, by decide, c10_log2_bit_tricks 1000000 (by decide) (by decide)⟩


/-! ### Evaluation lemmas for Put and Get -/

theorem Put_rejected {g : Globals} {tp : BytePool} {el : Buffer}
    (h : putRejects g tp el.Buf.cap) : BytePool.Put g tp el = some (g, tp) := by
  simp only [BytePool.Put, if_pos h]

theorem Put_admitted {g : Globals} {tp : BytePool} {el : Buffer} {o : Nat}
    (hrej : ¬ putRejects g tp el.Buf.cap)
    (ho : log2Floor (el.Buf.cap % 2 ^ 32) = o)
    (hlt : o < tp.list_of_pools.length) :
    BytePool.Put g tp el =
      some ({ g with avg := g.avg.UpdateNow (el.off : ℚ) },
            { tp with list_of_pools := (tp.list_of_pools.set o
                (tp.list_of_pools.get ⟨o, hlt⟩ ++ [putReset el])) }) := by
  simp only [BytePool.Put, putReset, if_neg hrej]
  subst ho
  rw [dif_pos hlt]

theorem Get_bypass {g : Globals} {tp : BytePool}
    (h : goInt g.avg.Current < 1 ∨ goInt g.avg.Current > tp.maxSize) :
    BytePool.Get g tp = (NewBuffer (goInt g.avg.Current)).map fun b => (tp, b) := by
  simp only [BytePool.Get, if_pos h]

theorem Get_pop {g : Globals} {tp : BytePool} {o : Nat} {bkt : List Buffer} {x : Buffer}
    (h : ¬ (goInt g.avg.Current < 1 ∨ goInt g.avg.Current > tp.maxSize))
    (ho : log2Ceil ((goInt g.avg.Current).toNat % 2 ^ 32) = o)
    (hlt : o < tp.list_of_pools.length)
    (hb : tp.list_of_pools.get ⟨o, hlt⟩ = bkt)
    (hlast : bkt.getLast? = some x) :
    BytePool.Get g tp =
      some ({ tp with list_of_pools := tp.list_of_pools.set o bkt.dropLast }, x) := by
  simp only [BytePool.Get, if_neg h]
  subst ho
  rw [dif_pos hlt, hb, hlast]

theorem Get_fresh {g : Globals} {tp : BytePool} {o : Nat} {bkt : List Buffer}
    (h : ¬ (goInt g.avg.Current < 1 ∨ goInt g.avg.Current > tp.maxSize))
    (ho : log2Ceil ((goInt g.avg.Current).toNat % 2 ^ 32) = o)
    (hlt : o < tp.list_of_pools.length)
    (hb : tp.list_of_pools.get ⟨o, hlt⟩ = bkt)
    (hlast : bkt.getLast? = none) :
    BytePool.Get g tp = (NewBuffer ((2 ^ o : Nat) : Int)).map fun b => (tp, b) := by
  simp only [BytePool.Get, if_neg h]
  subst ho
  rw [dif_pos hlt, hb, hlast]

/-! ### Basic facts about the scenario states -/

theorem g1024_eval : g1024.avg = newEwma := rfl

theorem tp1024_maxSize : tp1024.maxSize = 1023 := by decide

theorem tp1024_len : tp1024.list_of_pools.length = 11 := by decide

theorem goInt_newEwma : goInt newEwma.Current = 0 := by norm_num [newEwma, goInt]

/-! ### Claim C1: Release feeds the estimator with the read offset, not Len -/

theorem c1_hrej : ¬ putRejects g1024 tp1024 c1bw.Buf.cap := by
  have h1 : g1024.avg.Current - g1024.stdOff * g1024.avg.StdDev = 0 := by
    rw [g1024_eval]
    show (0 : ℚ) - g1024.stdOff * 0 = 0
    ring
  have hc : c1bw.Buf.cap = 100 := by decide
  unfold putRejects
  rw [hc, h1, tp1024_maxSize]
  norm_num [goInt]

theorem c1_get_fresh : BytePool.Get g1024 tp1024 = some (tp1024, b0val) := by
  rw [Get_bypass (Or.inl (by rw [g1024_eval, goInt_newEwma]; decide))]
  rw [g1024_eval, goInt_newEwma]
  decide

set_option maxRecDepth 8000 in
/-- C1 counterexample: from the `Init(0, t, 1024)` state, acquire a buffer,
write 100 bytes into it and release it. The released buffer has
`Len() = 100`, yet the estimator mean stays at 0: `Put` fed the estimator
the read offset `off = 0`, not `Len()` (feeding `Len() = 100` would have
moved the mean to 50), so the mean does not move toward 100. -/
theorem c1_counterexample :
    ((BytePool.Get g1024 tp1024).bind fun r1 =>
      (BytePool.Put g1024 r1.1 ((r1.2.Write (List.replicate 100 7)).1)).map fun r2 =>
        (((r1.2.Write (List.replicate 100 7)).1).Len, r2.1.avg.Current))
      = some ((100 : Int), (0 : ℚ)) ∧
    (g1024.avg.UpdateNow 100).Current = 50 ∧ ((0 : ℚ) ≠ 50) := by
  refine ⟨?_, ?_, by norm_num⟩
  · rw [c1_get_fresh, Option.some_bind]
    have hw : ((b0val.Write (List.replicate 100 7)).1) = c1bw := by decide
    rw [hw, @Put_admitted g1024 tp1024 c1bw 6 c1_hrej (by decide) (by decide), Option.map_some']
    simp only [Option.some.injEq, Prod.mk.injEq]
    constructor
    · decide
    · rw [g1024_eval]
      norm_num [Ewma.UpdateNow, newEwma, c1bw]
  · rw [g1024_eval]
    norm_num [Ewma.UpdateNow, newEwma]

/-- C1 amended: an admitted `Put` updates the (package-global) estimator
with the buffer's read offset `off` — the number of bytes already drained
out of it, which equals the bytes written only when the buffer was fully
drained before release — not with `Len()` and not with the capacity. -/
theorem c1_put_updates_with_off (g : Globals) (tp : BytePool) (el : Buffer)
    (g1 : Globals) (tp1 : BytePool)
    (h : BytePool.Put g tp el = some (g1, tp1))
    (hadm : ¬ putRejects g tp el.Buf.cap) :
    g1.avg = g.avg.UpdateNow (el.off : ℚ) := by
  simp only [BytePool.Put] at h
  rw [if_neg hadm] at h
  split at h
  · simp only [Option.some.injEq, Prod.mk.injEq] at h
    rw [← h.1]
  · exact absurd h (by simp)

theorem c7_hrej : ¬ putRejects c7gX tp1024 c7el.Buf.cap := by
  have h1 : c7gX.avg.Current - c7gX.stdOff * c7gX.avg.StdDev = 4 := by
    show (4 : ℚ) - c7gX.stdOff * 0 = 4
    ring
  have hc : c7el.Buf.cap = 4 := by decide
  unfold putRejects
  rw [hc, h1, tp1024_maxSize]
  norm_num [goInt]

theorem c7_ewma_fix : c7gX.avg.UpdateNow (c7el.off : ℚ) = c7gX.avg := by
  show Ewma.UpdateNow { Current := 4, StdDev := 0 } ((4 : Nat) : ℚ) = { Current := 4, StdDev := 0 }
  norm_num [Ewma.UpdateNow]

theorem c7_put : BytePool.Put c7gX tp1024 c7el = some (c7gX, c7tpAfter) := by
  rw [@Put_admitted c7gX tp1024 c7el 2 c7_hrej (by decide) (by decide)]
  simp only [Option.some.injEq, Prod.mk.injEq]
  constructor
  · rw [c7_ewma_fix]
  · decide

/-- Witness for C1 (amended) at the drained capacity-4 buffer `c7el`. -/
theorem c1_witness :
    BytePool.Put c7gX tp1024 c7el = some (c7gX, c7tpAfter) ∧
    ¬ putRejects c7gX tp1024 c7el.Buf.cap ∧
    c7gX.avg = c7gX.avg.UpdateNow (c7el.off : ℚ) :=
  ⟨c7_put, c7_hrej,
    c1_put_updates_with_off c7gX tp1024 c7el c7gX c7tpAfter c7_put c7_hrej⟩

/-! ### Claim C2: Acquire with an out-of-range estimate has no minimum floor -/

/-- C2 counterexample: with the estimator at 0 (the fresh `Init(0, t, 1024)`
state), `Get` returns a buffer of capacity 0 — there is no minimum floor. -/
theorem c2_counterexample :
    ((BytePool.Get g1024 tp1024).map fun r => (r.2.Buf.cap, r.2.Buf.len)) = some (0, 0) ∧
    g1024.avg.Current = 0 := by
  constructor
  · rw [c1_get_fresh]
    decide
  · rw [g1024_eval]
    rfl

theorem goInt_nonneg {q : ℚ} (h : 0 ≤ q) : 0 ≤ goInt q := by
  unfold goInt
  rw [if_pos h]
  exact Int.floor_nonneg.2 h

/-- C2 amended: `Get` never fails when the estimator mean is nonnegative,
but the bypass branch returns a buffer of capacity exactly `int(mean)` — so
with the estimator at 0 the buffer has capacity 0, there is no minimum
floor. In range, the bucket index is `ceil(log2(int(mean)))`; `Get` pops the
most recently released buffer of that bucket, or allocates capacity `2^i`
when it is empty. -/
theorem c2_get_characterization (g : Globals) (tp : BytePool) (L : Nat) (s : Int) (o : Nat)
    (hL : L ≤ 32) (hmax : tp.maxSize = 2 ^ L - 1)
    (hlen : tp.list_of_pools.length = L + 1) (hm : 0 ≤ g.avg.Current)
    (hs : s = goInt g.avg.Current) (ho : o = Nat.clog 2 s.toNat) :
    ∃ r, BytePool.Get g tp = some r ∧
      (s < 1 ∨ s > tp.maxSize →
        r.1 = tp ∧ (r.2.Buf.cap : Int) = s ∧ r.2.Len = s ∧ r.2.off = 0) ∧
      (1 ≤ s → s ≤ tp.maxSize →
        log2Ceil (s.toNat % 2 ^ 32) = o ∧ o < tp.list_of_pools.length ∧
        (∀ x, (tp.list_of_pools.getD o []).getLast? = some x →
          r.2 = x ∧ r.1.maxSize = tp.maxSize ∧
          r.1.list_of_pools = tp.list_of_pools.set o (tp.list_of_pools.getD o []).dropLast) ∧
        ((tp.list_of_pools.getD o []).getLast? = none →
          r.1 = tp ∧ r.2.Buf.cap = 2 ^ o ∧ r.2.off = 0)) := by
  subst hs
  subst ho
  by_cases hby : goInt g.avg.Current < 1 ∨ goInt g.avg.Current > tp.maxSize
  · have hnn : 0 ≤ goInt g.avg.Current := goInt_nonneg hm
    refine ⟨(tp, mkFresh (goInt g.avg.Current).toNat), ?_, ?_, ?_⟩
    · rw [Get_bypass hby]
      unfold NewBuffer
      rw [if_pos hnn]
      rfl
    · intro _
      refine ⟨rfl, ?_, ?_, rfl⟩
      · show ((List.replicate (goInt g.avg.Current).toNat 0).length : Int) = _
        rw [List.length_replicate, Int.toNat_of_nonneg hnn]
      · show (((goInt g.avg.Current).toNat : Nat) : Int) - ((0 : Nat) : Int) = _
        rw [Int.toNat_of_nonneg hnn]
        omega
    · intro h1 h2
      exact absurd hby (by omega)
  · have h1 : 1 ≤ goInt g.avg.Current := by omega
    have h2 : goInt g.avg.Current ≤ tp.maxSize := by omega
    have hnn : (0 : Int) ≤ goInt g.avg.Current := by omega
    have hs' : ((goInt g.avg.Current).toNat : Int) = goInt g.avg.Current :=
      Int.toNat_of_nonneg hnn
    have hsn1 : 1 ≤ (goInt g.avg.Current).toNat := by omega
    have hcast : (((2 : Nat) ^ L : Nat) : Int) = (2 : Int) ^ L := by push_cast; ring
    have h2' : goInt g.avg.Current ≤ (2 : Int) ^ L - 1 := by rw [hmax] at h2; exact h2
    have hsnlt : (goInt g.avg.Current).toNat < 2 ^ L := by omega
    have h2pow : (2 : Nat) ^ L ≤ 2 ^ 32 := Nat.pow_le_pow_right (by norm_num) hL
    have hsn32 : (goInt g.avg.Current).toNat < 2 ^ 32 := lt_of_lt_of_le hsnlt h2pow
    have hmod : (goInt g.avg.Current).toNat % 2 ^ 32 = (goInt g.avg.Current).toNat :=
      Nat.mod_eq_of_lt hsn32
    have hlog : log2Ceil ((goInt g.avg.Current).toNat % 2 ^ 32) =
        Nat.clog 2 (goInt g.avg.Current).toNat := by
      rw [hmod]
      exact log2Ceil_correct hsn1 hsn32
    have hclogL : Nat.clog 2 (goInt g.avg.Current).toNat ≤ L :=
      (Nat.le_pow_iff_clog_le (by norm_num)).1 (le_of_lt hsnlt)
    have holt : Nat.clog 2 (goInt g.avg.Current).toNat < tp.list_of_pools.length := by
      omega
    have hgd : tp.list_of_pools.get ⟨Nat.clog 2 (goInt g.avg.Current).toNat, holt⟩ =
        tp.list_of_pools.getD (Nat.clog 2 (goInt g.avg.Current).toNat) [] :=
      (List.getD_eq_get _ _ holt).symm
    cases hlast : (tp.list_of_pools.getD (Nat.clog 2 (goInt g.avg.Current).toNat) []).getLast? with
    | none =>
      refine ⟨(tp, mkFresh (2 ^ Nat.clog 2 (goInt g.avg.Current).toNat)), ?_, ?_, ?_⟩
      · rw [Get_fresh hby hlog holt hgd hlast]
        unfold NewBuffer
        rw [if_pos (Int.natCast_nonneg _)]
        rw [Int.toNat_natCast]
        rfl
      · intro hcond
        exact absurd hcond (by omega)
      · intro _ _
        refine ⟨hlog, holt, ?_, ?_⟩
        · intro x hx
          simp at hx
        · intro _
          refine ⟨rfl, ?_, rfl⟩
          show (List.replicate (2 ^ Nat.clog 2 (goInt g.avg.Current).toNat) (0 : Nat)).length = _
          rw [List.length_replicate]
    | some x =>
      refine ⟨({ tp with list_of_pools := (tp.list_of_pools.set
          (Nat.clog 2 (goInt g.avg.Current).toNat)
          (tp.list_of_pools.getD (Nat.clog 2 (goInt g.avg.Current).toNat) []).dropLast) }, x),
          ?_, ?_, ?_⟩
      · exact Get_pop hby hlog holt hgd hlast
      · intro hcond
        exact absurd hcond (by omega)
      · intro _ _
        refine ⟨hlog, holt, ?_, ?_⟩
        · intro x' hx'
          injection hx' with hx'
          subst hx'
          exact ⟨rfl, rfl, rfl⟩
        · intro hnone
          simp at hnone

/-- Witness for C2 (amended) with the estimator mean at 4 on the
`Init(0, t, 1024)` pool. -/
theorem c2_witness :
    ∃ r, BytePool.Get c7gX tp1024 = some r ∧
      ((4 : Int) < 1 ∨ (4 : Int) > tp1024.maxSize →
        r.1 = tp1024 ∧ (r.2.Buf.cap : Int) = 4 ∧ r.2.Len = 4 ∧ r.2.off = 0) ∧
      (1 ≤ (4 : Int) → (4 : Int) ≤ tp1024.maxSize →
        log2Ceil ((4 : Int).toNat % 2 ^ 32) = 2 ∧ 2 < tp1024.list_of_pools.length ∧
        (∀ x, (tp1024.list_of_pools.getD 2 []).getLast? = some x →
          r.2 = x ∧ r.1.maxSize = tp1024.maxSize ∧
          r.1.list_of_pools =
            tp1024.list_of_pools.set 2 (tp1024.list_of_pools.getD 2 []).dropLast) ∧
        ((tp1024.list_of_pools.getD 2 []).getLast? = none →
          r.1 = tp1024 ∧ r.2.Buf.cap = 2 ^ 2 ∧ r.2.off = 0)) :=
  c2_get_characterization c7gX tp1024 10 4 2 (by decide) (by decide) (by decide)
    (by show (0 : ℚ) ≤ 4; norm_num)
    (by show (4 : Int) = goInt 4; norm_num [goInt])
    (by rw [(by decide : ((4 : Int)).toNat = 2 ^ 2), Nat.clog_pow 2 2 (by norm_num)])

/-! ### Claim C3: the release admission policy also has a statistical lower bound -/

theorem c3_hrejX : putRejects c3gX tp1024 c3el.Buf.cap := by
  have h1 : c3gX.avg.Current - c3gX.stdOff * c3gX.avg.StdDev = 100 := by
    show (100 : ℚ) - c3gX.stdOff * 0 = 100
    ring
  unfold putRejects
  rw [(by decide : c3el.Buf.cap = 10), h1]
  right
  left
  norm_num [goInt]

/-- C3 counterexample: with the estimator mean at 100 (deviation 0), a
capacity-10 buffer satisfies `1 ≤ c ≤ maxSize` yet `Put` drops it (pool
unchanged, nothing retained) because `c < int(mean - 1.5*stddev)`. -/
theorem c3_counterexample :
    BytePool.Put c3gX tp1024 c3el = some (c3gX, tp1024) ∧
    1 ≤ c3el.Buf.cap ∧ (c3el.Buf.cap : Int) ≤ tp1024.maxSize ∧
    BytePool.Entries tp1024 = 0 :=
  ⟨Put_rejected c3_hrejX, by decide, by decide, by decide⟩

theorem sum_lengths_set_append (x : Buffer) :
    ∀ (ls : List (List Buffer)) (i : Nat), i < ls.length →
    ((ls.set i ((ls.getD i []) ++ [x])).map List.length).sum = ((ls.map List.length).sum) + 1 := by
  intro ls
  induction ls with
  | nil =>
    intro i h
    simp at h
  | cons hd tl ih =>
    intro i h
    cases i with
    | zero =>
      simp only [List.set_cons_zero, List.getD_cons_zero, List.map_cons, List.sum_cons,
        List.length_append, List.length_cons, List.length_nil]
      omega
    | succ j =>
      have hj : j < tl.length := by simpa using h
      simp only [List.set_cons_succ, List.getD_cons_succ, List.map_cons, List.sum_cons]
      rw [ih j hj]
      omega

/-- C3 amended: `Put` drops the buffer — `Entries` unchanged — exactly when
`c > maxSize` or `c < int(mean - 1.5*stddev)` (the statistical lower bound)
or `c < 1`; an admitted buffer is pushed onto bucket `floor(log2 c)` and
`Entries` grows by one. -/
theorem c3_put_characterization (g : Globals) (tp : BytePool) (el : Buffer) (L : Nat)
    (hL : L ≤ 32) (hmax : tp.maxSize = 2 ^ L - 1)
    (hlen : tp.list_of_pools.length = L + 1) :
    ∃ g1 tp1, BytePool.Put g tp el = some (g1, tp1) ∧
      (putRejects g tp el.Buf.cap → g1 = g ∧ tp1 = tp) ∧
      (¬ putRejects g tp el.Buf.cap →
        log2Floor (el.Buf.cap % 2 ^ 32) = Nat.log 2 el.Buf.cap ∧
        g1 = { g with avg := g.avg.UpdateNow (el.off : ℚ) } ∧
        tp1.maxSize = tp.maxSize ∧
        tp1.list_of_pools = tp.list_of_pools.set (Nat.log 2 el.Buf.cap)
          ((tp.list_of_pools.getD (Nat.log 2 el.Buf.cap) []) ++ [putReset el]) ∧
        BytePool.Entries tp1 = BytePool.Entries tp + 1) ∧
      (BytePool.Entries tp1 = BytePool.Entries tp ↔ putRejects g tp el.Buf.cap) := by
  by_cases hrej : putRejects g tp el.Buf.cap
  · exact ⟨g, tp, Put_rejected hrej, fun _ => ⟨rfl, rfl⟩, fun h => absurd hrej h,
      ⟨fun _ => hrej, fun _ => rfl⟩⟩
  · have hc1 : 1 ≤ el.Buf.cap := by
      by_contra hc
      exact hrej (Or.inr (Or.inr (by omega)))
    have hcmax : (el.Buf.cap : Int) ≤ tp.maxSize := by
      by_contra hc
      exact hrej (Or.inl (by omega))
    have hcast : (((2 : Nat) ^ L : Nat) : Int) = (2 : Int) ^ L := by push_cast; ring
    have hclt : el.Buf.cap < 2 ^ L := by
      rw [hmax] at hcmax
      omega
    have hc32 : el.Buf.cap < 2 ^ 32 :=
      lt_of_lt_of_le hclt (Nat.pow_le_pow_right (by norm_num) hL)
    have hmod : el.Buf.cap % 2 ^ 32 = el.Buf.cap := Nat.mod_eq_of_lt hc32
    have hflog : log2Floor (el.Buf.cap % 2 ^ 32) = Nat.log 2 el.Buf.cap := by
      rw [hmod, log2Floor_correct hc1 hc32, Nat.log2_eq_log_two]
    have hlogL : Nat.log 2 el.Buf.cap < L := Nat.log_lt_of_lt_pow (by omega) hclt
    have holt : log2Floor (el.Buf.cap % 2 ^ 32) < tp.list_of_pools.length := by
      rw [hflog, hlen]
      omega
    have hgd : tp.list_of_pools.get ⟨log2Floor (el.Buf.cap % 2 ^ 32), holt⟩ =
        tp.list_of_pools.getD (log2Floor (el.Buf.cap % 2 ^ 32)) [] :=
      (List.getD_eq_get _ _ holt).symm
    refine ⟨_, _, @Put_admitted g tp el (log2Floor (el.Buf.cap % 2 ^ 32)) hrej rfl holt,
      fun h => absurd h hrej, ?_, ?_⟩
    · intro _
      refine ⟨hflog, rfl, rfl, ?_, ?_⟩
      · show tp.list_of_pools.set _ _ = _
        rw [hgd, hflog]
      · show ((tp.list_of_pools.set _ _).map List.length).sum = _
        rw [hgd]
        exact sum_lengths_set_append (putReset el) tp.list_of_pools _ holt
    · constructor
      · intro habs
        have hent : BytePool.Entries { tp with list_of_pools := (tp.list_of_pools.set
            (log2Floor (el.Buf.cap % 2 ^ 32))
            (tp.list_of_pools.get ⟨log2Floor (el.Buf.cap % 2 ^ 32), holt⟩ ++ [putReset el])) }
            = BytePool.Entries tp + 1 := by
          show ((tp.list_of_pools.set _ _).map List.length).sum = _
          rw [hgd]
          exact sum_lengths_set_append (putReset el) tp.list_of_pools _ holt
        rw [hent] at habs
        omega
      · intro hr
        exact absurd hr hrej

/-- Witness for C3 (amended): the drained capacity-4 buffer `c7el` is
admitted into the `Init(0, t, 1024)` pool. -/
theorem c3_witness :
    ∃ g1 tp1, BytePool.Put c7gX tp1024 c7el = some (g1, tp1) ∧
      (putRejects c7gX tp1024 c7el.Buf.cap → g1 = c7gX ∧ tp1 = tp1024) ∧
      (¬ putRejects c7gX tp1024 c7el.Buf.cap →
        log2Floor (c7el.Buf.cap % 2 ^ 32) = Nat.log 2 c7el.Buf.cap ∧
        g1 = { c7gX with avg := c7gX.avg.UpdateNow (c7el.off : ℚ) } ∧
        tp1.maxSize = tp1024.maxSize ∧
        tp1.list_of_pools = tp1024.list_of_pools.set (Nat.log 2 c7el.Buf.cap)
          ((tp1024.list_of_pools.getD (Nat.log 2 c7el.Buf.cap) []) ++ [putReset c7el]) ∧
        BytePool.Entries tp1 = BytePool.Entries tp1024 + 1) ∧
      (BytePool.Entries tp1 = BytePool.Entries tp1024 ↔ putRejects c7gX tp1024 c7el.Buf.cap) :=
  c3_put_characterization c7gX tp1024 c7el 10 (by decide) (by decide) (by decide)

/-! ### Claim C8: the usage estimator is package-global, not per-pool -/

theorem c8_hrej : ¬ putRejects g1024 tp1024 c8el.Buf.cap := by
  have h1 : g1024.avg.Current - g1024.stdOff * g1024.avg.StdDev = 0 := by
    rw [g1024_eval]
    show (0 : ℚ) - g1024.stdOff * 0 = 0
    ring
  unfold putRejects
  rw [(by decide : c8el.Buf.cap = 8), h1, tp1024_maxSize]
  norm_num [goInt]

/-- C8 counterexample: `Get` on the separately initialized pool `tp2048`
returns a capacity-0 buffer under the fresh globals, but after a `Release`
into the *other* pool `tp1024` the same `Get` on `tp2048` returns a
capacity-4 buffer: the release to one pool changed the other pool's
acquire sizing, because the estimator is shared package state. -/
theorem c8_counterexample :
    ((BytePool.Get g1024 tp2048).map fun r => r.2.Buf.cap) = some 0 ∧
    ((BytePool.Put g1024 tp1024 c8el).bind fun r =>
      (BytePool.Get r.1 tp2048).map fun x => x.2.Buf.cap) = some 4 ∧
    tp1024.maxSize = 1023 ∧ tp2048.maxSize = 2047 := by
  refine ⟨?_, ?_, by decide, by decide⟩
  · rw [Get_bypass (Or.inl (by rw [g1024_eval, goInt_newEwma]; decide))]
    rw [g1024_eval, goInt_newEwma]
    decide
  · rw [@Put_admitted g1024 tp1024 c8el 3 c8_hrej (by decide) (by decide), Option.some_bind]
    have hcur : ({ g1024 with avg := g1024.avg.UpdateNow (c8el.off : ℚ) }).avg.Current = 4 := by
      rw [g1024_eval]
      show (newEwma.Current + ((8 : Nat) : ℚ)) / 2 = 4
      norm_num [newEwma]
    have hgi : goInt ({ g1024 with avg := g1024.avg.UpdateNow (c8el.off : ℚ) }).avg.Current
        = 4 := by
      rw [hcur]
      norm_num [goInt]
    rw [Get_fresh (by rw [hgi]; decide) (by rw [hgi]; decide)
      (by decide : (2 : Nat) < tp2048.list_of_pools.length)
      (by decide : tp2048.list_of_pools.get ⟨2, by decide⟩ = tp2048.list_of_pools.getD 2 [])
      (by decide)]
    unfold NewBuffer
    rw [if_pos (Int.natCast_nonneg _), Int.toNat_natCast]
    decide

/-- C8 amended: the estimator is process-wide shared state, not a pool
field. `Get`'s result depends on the pool only through the shared globals
(pools with equal global estimator behave identically), every admitted
`Put` through any pool writes the shared estimator, and `Init` of any pool
resets the estimator every other pool reads. -/
theorem c8_shared_estimator :
    (∀ gA gB : Globals, ∀ tp : BytePool, gA.avg = gB.avg →
        BytePool.Get gA tp = BytePool.Get gB tp) ∧
    (∀ (g : Globals) (tp : BytePool) (el : Buffer) (g1 : Globals) (tp1 : BytePool),
        BytePool.Put g tp el = some (g1, tp1) →
        g1.avg = g.avg ∨ g1.avg = g.avg.UpdateNow (el.off : ℚ)) ∧
    (∀ ms : Nat, ((BytePool.Init ms).1).avg = newEwma) := by
  refine ⟨?_, ?_, fun ms => rfl⟩
  · intro gA gB tp h
    unfold BytePool.Get
    rw [h]
  · intro g tp el g1 tp1 h
    simp only [BytePool.Put] at h
    split at h
    · left
      simp only [Option.some.injEq, Prod.mk.injEq] at h
      rw [← h.1]
    · split at h
      · right
        simp only [Option.some.injEq, Prod.mk.injEq] at h
        rw [← h.1]
      · exact absurd h (by simp)

/-- Witness for C8 (amended) at concrete globals, pools and a release. -/
theorem c8_witness :
    BytePool.Get { avg := newEwma, stdOff := 99 } tp1024 = BytePool.Get g1024 tp1024 ∧
    (c7gX.avg = c7gX.avg ∨ c7gX.avg = c7gX.avg.UpdateNow (c7el.off : ℚ)) ∧
    ((BytePool.Init 1024).1).avg = newEwma :=
  ⟨c8_shared_estimator.1 { avg := newEwma, stdOff := 99 } g1024 tp1024 rfl,
   c8_shared_estimator.2.1 c7gX tp1024 c7el c7gX c7tpAfter c7_put,
   c8_shared_estimator.2.2 1024⟩

/-! ### Evaluation lemmas for the buffer operations -/

theorem Reset_eq (b : Buffer) :
    b.Reset = { b with off := 0, Buf := { b.Buf with len := 0 } } := by
  obtain ⟨⟨d, l, nil⟩, o, e⟩ := b
  have h1 : ¬((0 : Int) < 0 ∨ (0 : Int) > (l : Int)) := by omega
  have h2 : ¬((l : Int) < 0) := by omega
  simp [Buffer.Reset, Buffer.Truncate, GoSlice.cap, if_neg h1, if_neg h2]

theorem grow_of_reset (b : Buffer) (n : Nat) (h : b.Buf.len - b.off = 0 ∧ b.off ≠ 0) :
    b.grow n = (b.Reset).grow n := by
  have hm : b.Buf.len - b.off = 0 := h.1
  conv_lhs => rw [Buffer.grow]
  conv_rhs => rw [Buffer.grow]
  rw [if_pos h, Reset_eq]
  simp [GoSlice.cap, hm]

theorem grow_descr (b : Buffer) (n : Nat)
    (hno : ¬(b.Buf.len - b.off = 0 ∧ b.off ≠ 0)) :
    (b.Buf.len + n ≤ b.Buf.cap →
      b.grow n = ({ b with Buf := { b.Buf with len := b.off + (b.Buf.len - b.off) + n } }, b.off + (b.Buf.len - b.off))) ∧
    (b.Buf.len + n > b.Buf.cap → b.Buf.isNil = true → n ≤ 64 →
      b.grow n = ({ b with off := 0, Buf := { data := List.replicate 64 0, len := (b.Buf.len - b.off) + n, isNil := false } }, b.Buf.len - b.off)) ∧
    (b.Buf.len + n > b.Buf.cap → ¬(b.Buf.isNil = true ∧ n ≤ 64) →
      (b.Buf.len - b.off) + n ≤ b.Buf.cap / 2 →
      b.grow n = ({ b with off := 0, Buf := { data := (b.Buf.data.drop b.off).take (b.Buf.len - b.off) ++ b.Buf.data.drop (b.Buf.len - b.off), len := (b.Buf.len - b.off) + n, isNil := b.Buf.isNil } }, b.Buf.len - b.off)) ∧
    (b.Buf.len + n > b.Buf.cap → ¬(b.Buf.isNil = true ∧ n ≤ 64) →
      (b.Buf.len - b.off) + n > b.Buf.cap / 2 →
      b.grow n = ({ b with off := 0, Buf := { data := (b.Buf.data.drop b.off).take (b.Buf.len - b.off) ++ List.replicate (2 * b.Buf.cap + n - (b.Buf.len - b.off)) 0, len := (b.Buf.len - b.off) + n, isNil := false } }, b.Buf.len - b.off)) := by
  refine ⟨?_, ?_, ?_, ?_⟩
  · intro hle
    rw [Buffer.grow]
    simp only [if_neg hno, if_neg (by omega : ¬(b.Buf.len + n > b.Buf.cap))]
  · intro hov hnil h64
    rw [Buffer.grow]
    simp only [if_neg hno, if_pos hov, if_pos (⟨hnil, h64⟩ : b.Buf.isNil = true ∧ n ≤ 64)]
    simp
  · intro hov hnb hsl
    rw [Buffer.grow]
    simp only [if_neg hno, if_pos hov, if_neg hnb, if_pos hsl]
    simp
  · intro hov hnb hsl
    rw [Buffer.grow]
    simp only [if_neg hno, if_pos hov, if_neg hnb,
      if_neg (by omega : ¬((b.Buf.len - b.off) + n ≤ b.Buf.cap / 2))]
    simp

theorem grow_wf_aux (b : Buffer) (n : Nat) (hwf : WF b)
    (hno : ¬(b.Buf.len - b.off = 0 ∧ b.off ≠ 0)) :
    WF (b.grow n).1 ∧ (b.grow n).1.Buf.len = (b.grow n).2 + n ∧
    (b.off = b.Buf.len → (b.grow n).1.off = 0 ∧ (b.grow n).2 = 0) := by
  obtain ⟨hw1, hw2, hw3⟩ := hwf
  obtain ⟨hd1, hd2, hd3, hd4⟩ := grow_descr b n hno
  simp only [GoSlice.cap] at hd1 hd2 hd3 hd4
  by_cases hov : b.Buf.len + n > b.Buf.data.length
  · by_cases hbs : b.Buf.isNil = true ∧ n ≤ 64
    · have hc0 : b.Buf.data.length = 0 := hw3 hbs.1
      rw [hd2 hov hbs.1 hbs.2]
      refine ⟨⟨?_, ?_, ?_⟩, ?_, fun hol => ⟨rfl, ?_⟩⟩
      · show (0 : Nat) ≤ _
        omega
      · show b.Buf.len - b.off + n ≤ (List.replicate 64 (0 : Nat)).length
        rw [List.length_replicate]
        have h64 := hbs.2
        omega
      · intro hfalse
        cases hfalse
      · rfl
      · show b.Buf.len - b.off = 0
        omega
    · by_cases hsl : (b.Buf.len - b.off) + n ≤ b.Buf.data.length / 2
      · rw [hd3 hov hbs hsl]
        have hlen : ((b.Buf.data.drop b.off).take (b.Buf.len - b.off) ++
            b.Buf.data.drop (b.Buf.len - b.off)).length = b.Buf.data.length := by
          rw [List.length_append, List.length_take, List.length_drop, List.length_drop]
          omega
        refine ⟨⟨?_, ?_, ?_⟩, ?_, fun hol => ⟨rfl, ?_⟩⟩
        · show (0 : Nat) ≤ _
          omega
        · show b.Buf.len - b.off + n ≤ _
          rw [hlen]
          omega
        · intro hnil
          have hc0 : b.Buf.data.length = 0 := hw3 hnil
          exfalso
          omega
        · rfl
        · show b.Buf.len - b.off = 0
          omega
      · rw [hd4 hov hbs (by omega)]
        have hlen : ((b.Buf.data.drop b.off).take (b.Buf.len - b.off) ++
            List.replicate (2 * b.Buf.data.length + n - (b.Buf.len - b.off)) (0 : Nat)).length =
            2 * b.Buf.data.length + n := by
          rw [List.length_append, List.length_take, List.length_drop, List.length_replicate]
          omega
        refine ⟨⟨?_, ?_, ?_⟩, ?_, fun hol => ⟨rfl, ?_⟩⟩
        · show (0 : Nat) ≤ _
          omega
        · show b.Buf.len - b.off + n ≤ _
          rw [hlen]
          omega
        · intro hfalse
          cases hfalse
        · rfl
        · show b.Buf.len - b.off = 0
          omega
  · rw [hd1 (by omega)]
    refine ⟨⟨?_, ?_, ?_⟩, ?_, fun hol => ⟨?_, ?_⟩⟩
    · show b.off ≤ b.off + (b.Buf.len - b.off) + n
      omega
    · show b.off + (b.Buf.len - b.off) + n ≤ b.Buf.data.length
      omega
    · intro hnil
      exact hw3 hnil
    · rfl
    · show b.off = 0
      by_cases hz : b.off = 0
      · exact hz
      · exact absurd ⟨by omega, hz⟩ hno
    · show b.off + (b.Buf.len - b.off) = 0
      by_cases hz : b.off = 0
      · omega
      · exact absurd ⟨by omega, hz⟩ hno

theorem grow_wf (b : Buffer) (n : Nat) (hwf : WF b) :
    WF (b.grow n).1 ∧ (b.grow n).1.Buf.len = (b.grow n).2 + n ∧
    (b.off = b.Buf.len → (b.grow n).1.off = 0 ∧ (b.grow n).2 = 0) := by
  by_cases hres : b.Buf.len - b.off = 0 ∧ b.off ≠ 0
  · rw [grow_of_reset b n hres]
    have hwfr : WF b.Reset := by
      rw [Reset_eq]
      exact ⟨Nat.le_refl 0, Nat.zero_le _, fun h => hwf.2.2 h⟩
    have hnor : ¬(b.Reset.Buf.len - b.Reset.off = 0 ∧ b.Reset.off ≠ 0) := by
      rw [Reset_eq]
      simp
    have haux := grow_wf_aux b.Reset n hwfr hnor
    refine ⟨haux.1, haux.2.1, fun _ => haux.2.2 ?_⟩
    rw [Reset_eq]
  · exact grow_wf_aux b n hwf hres

theorem writeBytes_length (l : List Nat) (pos : Nat) (p : List Nat)
    (h : pos + p.length ≤ l.length) : (writeBytes l pos p).length = l.length := by
  unfold writeBytes
  rw [List.length_append, List.length_append, List.length_take, List.length_drop]
  omega

theorem Write_wf (b : Buffer) (p : List Nat) (hwf : WF b) : WF (b.Write p).1 := by
  obtain ⟨hg, hlen2, -⟩ := grow_wf b p.length hwf
  obtain ⟨g1, g2, g3⟩ := hg
  have hkb : (b.grow p.length).2 +
      (p.take (min ((b.grow p.length).1.Buf.len - (b.grow p.length).2) p.length)).length ≤
      (b.grow p.length).1.Buf.data.length := by
    rw [List.length_take]
    omega
  simp only [Buffer.Write]
  exact ⟨g1, by rw [writeBytes_length _ _ _ hkb]; exact g2,
    fun hnil => by rw [writeBytes_length _ _ _ hkb]; exact g3 hnil⟩

theorem WriteTo_wf (b : Buffer) (acc : Nat) (e : Bool) (r : Buffer × Int × Option WErr)
    (hwf : WF b) (h : b.WriteTo acc e = some r) : WF r.1 := by
  obtain ⟨rb, ri, re⟩ := r
  obtain ⟨w1, w2, w3⟩ := hwf
  show WF rb
  simp only [Buffer.WriteTo] at h
  split_ifs at h with h1 h2 h3 h4
  all_goals first
    | (injection h; done)
    | (injection h with h'
       injection h' with ha hb
       rw [← ha]
       first
         | exact ⟨w1, w2, w3⟩
         | (refine ⟨?_, w2, w3⟩
            show b.off + acc ≤ b.Buf.len
            omega))

theorem Truncate_wf (b : Buffer) (n : Int) (b1 : Buffer) (hwf : WF b)
    (h : b.Truncate n = some b1) : WF b1 := by
  obtain ⟨w1, w2, w3⟩ := hwf
  simp only [Buffer.Truncate, GoSlice.cap] at h
  by_cases h1 : n < 0 ∨ n > (b.Buf.len : Int)
  · rw [if_pos h1] at h
    exact absurd h (by simp)
  · rw [if_neg h1] at h
    by_cases h2 : n = 0
    · subst h2
      rw [if_pos rfl] at h
      rw [if_pos (by simp : ((({ b with off := 0 } : Buffer).off : Int) + 0 ≤
        (({ b with off := 0 } : Buffer).Buf.data.length : Int)))] at h
      simp only [Option.some.injEq] at h
      rw [← h]
      refine ⟨?_, ?_, w3⟩
      · show (0 : Nat) ≤ 0 + (0 : Int).toNat
        omega
      · show 0 + (0 : Int).toNat ≤ b.Buf.data.length
        omega
    · rw [if_neg h2] at h
      by_cases h3 : (b.off : Int) + n ≤ (b.Buf.data.length : Int)
      · rw [if_pos h3] at h
        simp only [Option.some.injEq] at h
        rw [← h]
        refine ⟨?_, ?_, w3⟩
        · show b.off ≤ b.off + n.toNat
          omega
        · show b.off + n.toNat ≤ b.Buf.data.length
          omega
      · rw [if_neg h3] at h
        exact absurd h (by simp)

theorem stepOp_wf (b : Buffer) (op : BufOp) (b1 : Buffer) (hwf : WF b)
    (h : stepOp b op = some b1) : WF b1 := by
  cases op with
  | write p =>
    simp only [stepOp, Option.some.injEq] at h
    rw [← h]
    exact Write_wf b p hwf
  | writeTo acc e =>
    simp only [stepOp] at h
    cases hw : b.WriteTo acc e with
    | none =>
      rw [hw] at h
      simp at h
    | some r =>
      rw [hw] at h
      simp only [Option.map_some', Option.some.injEq] at h
      rw [← h]
      exact WriteTo_wf b acc e r ⟨hwf.1, hwf.2.1, hwf.2.2⟩ hw
  | truncate n =>
    simp only [stepOp] at h
    exact Truncate_wf b n b1 hwf h
  | reset =>
    simp only [stepOp, Option.some.injEq] at h
    rw [← h, Reset_eq]
    exact ⟨Nat.le_refl 0, Nat.zero_le _, fun hn => hwf.2.2 hn⟩

/-- C9: the slice invariant `0 ≤ off ≤ len(data) ≤ capacity(data)` (with a
nil slice having capacity 0) is preserved by every panic-free sequence of
`Write`, `WriteTo`, `Truncate` and `Reset` operations; each operation of
the model touches only indices inside `[0, capacity)` of the backing
array. -/
theorem c9_invariant (ops : List BufOp) : ∀ b b1 : Buffer, WF b →
    runOps b ops = some b1 → WF b1 := by
  induction ops with
  | nil =>
    intro b b1 hwf h
    simp only [runOps, Option.some.injEq] at h
    rw [← h]
    exact hwf
  | cons op ops ih =>
    intro b b1 hwf h
    simp only [runOps] at h
    cases hs : stepOp b op with
    | none =>
      rw [hs] at h
      simp at h
    | some b2 =>
      rw [hs] at h
      simp only [Option.some_bind] at h
      exact ih b2 b1 (stepOp_wf b op b2 hwf hs) h

/-- Witness for C9: a concrete panic-free run of all four operations from a
fresh capacity-4 buffer preserves the invariant. -/
theorem c9_witness :
    WF (mkFresh 4) ∧ runOps (mkFresh 4) c9ops = some c9final ∧ WF c9final :=
  ⟨by decide, by decide, c9_invariant c9ops (mkFresh 4) c9final (by decide) (by decide)⟩

/-! ### Claim C4: the growth strategy of Write -/

/-- C4: when a `Write` of `n` bytes overflows the capacity of a (normalized)
buffer: with no backing storage (nil slice) and `n` within the 64-byte
bootstrap threshold, the embedded bootstrap array is adopted instead of
allocating; otherwise when the valid length `m` plus `n` fits in half the
capacity, the valid content `[off, len)` slides to offset 0 with `off`
reset to 0 and no new allocation (capacity and the array tail are
unchanged); otherwise a fresh region of `max(2*cap + n, n)` bytes is
allocated and the valid content copied to its front. -/
theorem c4_grow_strategy (b : Buffer) (n : Nat) (hwf : WF b)
    (hno : ¬(b.Buf.len - b.off = 0 ∧ b.off ≠ 0))
    (hov : b.Buf.len + n > b.Buf.cap) :
    (b.Buf.isNil = true → n ≤ 64 →
      (b.grow n).1.Buf.cap = 64 ∧ (b.grow n).1.off = 0 ∧ (b.grow n).1.Buf.isNil = false) ∧
    (¬(b.Buf.isNil = true ∧ n ≤ 64) → (b.Buf.len - b.off) + n ≤ b.Buf.cap / 2 →
      (b.grow n).1.Buf.cap = b.Buf.cap ∧ (b.grow n).1.off = 0 ∧
      (b.grow n).1.Buf.isNil = b.Buf.isNil ∧
      (b.grow n).1.Buf.len = (b.Buf.len - b.off) + n ∧
      (b.grow n).1.Buf.data.take (b.Buf.len - b.off) =
        (b.Buf.data.drop b.off).take (b.Buf.len - b.off) ∧
      (b.grow n).1.Buf.data.drop (b.Buf.len - b.off) =
        b.Buf.data.drop (b.Buf.len - b.off)) ∧
    (¬(b.Buf.isNil = true ∧ n ≤ 64) → (b.Buf.len - b.off) + n > b.Buf.cap / 2 →
      (b.grow n).1.Buf.cap = max (2 * b.Buf.cap + n) n ∧
      (b.grow n).1.off = 0 ∧
      (b.grow n).1.Buf.len = (b.Buf.len - b.off) + n ∧
      (b.grow n).1.Buf.data.take (b.Buf.len - b.off) =
        (b.Buf.data.drop b.off).take (b.Buf.len - b.off)) := by
  obtain ⟨w1, w2, w3⟩ := hwf
  obtain ⟨hd1, hd2, hd3, hd4⟩ := grow_descr b n hno
  simp only [GoSlice.cap] at hd1 hd2 hd3 hd4 hov ⊢
  have hA : ((b.Buf.data.drop b.off).take (b.Buf.len - b.off)).length = b.Buf.len - b.off := by
    rw [List.length_take, List.length_drop]
    omega
  refine ⟨?_, ?_, ?_⟩
  · intro hnil h64
    rw [hd2 hov hnil h64]
    refine ⟨?_, rfl, rfl⟩
    show (List.replicate 64 (0 : Nat)).length = 64
    rw [List.length_replicate]
  · intro hnb hsl
    rw [hd3 hov hnb hsl]
    refine ⟨?_, rfl, rfl, rfl, ?_, ?_⟩
    · show ((b.Buf.data.drop b.off).take (b.Buf.len - b.off) ++
        b.Buf.data.drop (b.Buf.len - b.off)).length = b.Buf.data.length
      rw [List.length_append, hA, List.length_drop]
      omega
    · exact List.take_left' hA
    · exact List.drop_left' hA
  · intro hnb hsl
    rw [hd4 hov hnb hsl]
    refine ⟨?_, rfl, rfl, ?_⟩
    · show ((b.Buf.data.drop b.off).take (b.Buf.len - b.off) ++
        List.replicate (2 * b.Buf.data.length + n - (b.Buf.len - b.off)) (0 : Nat)).length =
        max (2 * b.Buf.data.length + n) n
      rw [List.length_append, hA, List.length_replicate]
      omega
    · exact List.take_left' hA

/-- Witness for C4 at the slide-down instance `c4b` with a 3-byte write. -/
theorem c4_witness :
    (c4b.Buf.isNil = true → 3 ≤ 64 →
      (c4b.grow 3).1.Buf.cap = 64 ∧ (c4b.grow 3).1.off = 0 ∧
      (c4b.grow 3).1.Buf.isNil = false) ∧
    (¬(c4b.Buf.isNil = true ∧ 3 ≤ 64) → (c4b.Buf.len - c4b.off) + 3 ≤ c4b.Buf.cap / 2 →
      (c4b.grow 3).1.Buf.cap = c4b.Buf.cap ∧ (c4b.grow 3).1.off = 0 ∧
      (c4b.grow 3).1.Buf.isNil = c4b.Buf.isNil ∧
      (c4b.grow 3).1.Buf.len = (c4b.Buf.len - c4b.off) + 3 ∧
      (c4b.grow 3).1.Buf.data.take (c4b.Buf.len - c4b.off) =
        (c4b.Buf.data.drop c4b.off).take (c4b.Buf.len - c4b.off) ∧
      (c4b.grow 3).1.Buf.data.drop (c4b.Buf.len - c4b.off) =
        c4b.Buf.data.drop (c4b.Buf.len - c4b.off)) ∧
    (¬(c4b.Buf.isNil = true ∧ 3 ≤ 64) → (c4b.Buf.len - c4b.off) + 3 > c4b.Buf.cap / 2 →
      (c4b.grow 3).1.Buf.cap = max (2 * c4b.Buf.cap + 3) 3 ∧
      (c4b.grow 3).1.off = 0 ∧
      (c4b.grow 3).1.Buf.len = (c4b.Buf.len - c4b.off) + 3 ∧
      (c4b.grow 3).1.Buf.data.take (c4b.Buf.len - c4b.off) =
        (c4b.Buf.data.drop c4b.off).take (c4b.Buf.len - c4b.off)) :=
  c4_grow_strategy c4b 3 (by decide) (by decide) (by decide)

/-! ### Claim C5: write / WriteTo round-trip -/

/-- C5: writing `k` bytes into an empty buffer (`Len() = 0`) and then
draining it with `WriteTo` into a sink that accepts everything transfers
exactly the written bytes, in order (`pending` — the bytes offered to the
sink — is the written sequence), returns their count with no error, and
leaves `Len() = 0`. -/
theorem c5_roundtrip (b : Buffer) (p : List Nat) (hwf : WF b) (hempty : b.Len = 0) :
    Buffer.pending ((b.Write p).1) = p ∧
    ∃ b2, ((b.Write p).1).WriteTo p.length false = some (b2, (p.length : Int), none) ∧
      b2.Len = 0 := by
  have hoe : b.off = b.Buf.len := by
    unfold Buffer.Len at hempty
    omega
  obtain ⟨hg, hlen2, hz⟩ := grow_wf b p.length hwf
  obtain ⟨hoff0, hsnd0⟩ := hz hoe
  have hlenn : (b.grow p.length).1.Buf.len = p.length := by omega
  obtain ⟨g1, g2, g3⟩ := hg
  have hk : min ((b.grow p.length).1.Buf.len - (b.grow p.length).2) p.length = p.length := by
    omega
  have hW1 : (b.Write p).1.off = 0 := by
    simp only [Buffer.Write]
    exact hoff0
  have hW2 : (b.Write p).1.Buf.len = p.length := by
    simp only [Buffer.Write]
    exact hlenn
  have hW3 : (b.Write p).1.Buf.data = p ++ (b.grow p.length).1.Buf.data.drop p.length := by
    simp only [Buffer.Write]
    rw [hk, List.take_length, hsnd0]
    unfold writeBytes
    simp
  constructor
  · unfold Buffer.pending
    rw [hW1, hW2, hW3, List.drop_zero, List.take_left]
  · by_cases hp : p.length = 0
    · refine ⟨(b.Write p).1, ?_, ?_⟩
      · simp only [Buffer.WriteTo]
        rw [if_neg (by rw [hW1, hW2]; omega)]
        rw [hp]
        simp
      · unfold Buffer.Len
        rw [hW1, hW2]
        omega
    · refine ⟨{ (b.Write p).1 with off := (b.Write p).1.off + p.length }, ?_, ?_⟩
      · simp only [Buffer.WriteTo]
        rw [if_pos (by rw [hW1, hW2]; omega)]
        rw [if_neg (by rw [hW1, hW2]; omega :
          ¬(p.length > (b.Write p).1.Buf.len - (b.Write p).1.off))]
        rw [if_neg (by decide : ¬(false = true))]
        rw [if_neg (by rw [hW1, hW2]; omega :
          ¬(p.length ≠ (b.Write p).1.Buf.len - (b.Write p).1.off))]
      · unfold Buffer.Len
        show (((b.Write p).1).Buf.len : Int) - (((b.Write p).1).off + p.length : Nat) = 0
        rw [hW1, hW2]
        push_cast
        omega

/-- Witness for C5: the 3-byte round-trip through a fresh empty buffer. -/
theorem c5_witness :
    Buffer.pending (((mkFresh 0).Write [1, 2, 3]).1) = [1, 2, 3] ∧
    ∃ b2, (((mkFresh 0).Write [1, 2, 3]).1).WriteTo ([1, 2, 3] : List Nat).length false =
      some (b2, (([1, 2, 3] : List Nat).length : Int), none) ∧ b2.Len = 0 :=
  c5_roundtrip (mkFresh 0) [1, 2, 3] (by decide) (by decide)

/-! ### Claim C6: the Truncate failure condition -/

/-- C6 counterexample: on a buffer with slice length 10 and capacity 20
(read offset 0), `Truncate 15` panics — the guard is `n > len(b.Buf)`, not
`off + n > capacity` as the claim states (here `off + n = 15 ≤ 20`). -/
theorem c6_counterexample :
    Buffer.Truncate c6buf 15 = none ∧
    ¬ ((15 : Int) < 0 ∨ (c6buf.off : Int) + 15 > (c6buf.Buf.cap : Int)) := by
  constructor
  · decide
  · decide

theorem Truncate_zero (b : Buffer) :
    Buffer.Truncate b 0 = some { b with off := 0, Buf := { b.Buf with len := 0 } } := by
  obtain ⟨⟨d, l, nil⟩, o, e⟩ := b
  have h1 : ¬((0 : Int) < 0 ∨ (0 : Int) > (l : Int)) := by omega
  have h2 : ¬((l : Int) < 0) := by omega
  simp [Buffer.Truncate, GoSlice.cap, if_neg h1, if_neg h2]

theorem Truncate_pos_eval (b : Buffer) (n : Int) (h1 : ¬(n < 0 ∨ n > (b.Buf.len : Int)))
    (h2 : ¬(n = 0)) :
    Buffer.Truncate b n =
      if (b.off : Int) + n ≤ (b.Buf.cap : Int) then
        some { b with Buf := { b.Buf with len := b.off + n.toNat } }
      else none := by
  simp only [Buffer.Truncate]
  rw [if_neg h1, if_neg h2]

/-- C6 amended: `Truncate n` fails exactly when `n < 0`, or `n` exceeds the
current slice length `len(b.Buf)`, or the reslice bound `off' + n` exceeds
the capacity (`off'` being 0 when `n = 0`); on success it sets the slice
length to `off' + n` (so `n = 0` also resets `off` to 0), leaving the
backing array, nil flag and remaining fields unchanged. -/
theorem c6_truncate_characterization (b : Buffer) (n : Int) :
    (Buffer.Truncate b n = none ↔
      (n < 0 ∨ n > (b.Buf.len : Int) ∨
        ((if n = 0 then 0 else (b.off : Int)) + n > (b.Buf.cap : Int)))) ∧
    (∀ b1, Buffer.Truncate b n = some b1 →
      b1.off = (if n = 0 then 0 else b.off) ∧
      b1.Buf.len = (if n = 0 then 0 else b.off) + n.toNat ∧
      b1.Buf.data = b.Buf.data ∧ b1.Buf.isNil = b.Buf.isNil ∧ b1.ending = b.ending) := by
  constructor
  · by_cases h1 : n < 0 ∨ n > (b.Buf.len : Int)
    · have heval : Buffer.Truncate b n = none := by
        simp only [Buffer.Truncate]
        rw [if_pos h1]
      rw [heval]
      refine ⟨fun _ => ?_, fun _ => rfl⟩
      rcases h1 with h | h
      · exact Or.inl h
      · exact Or.inr (Or.inl h)
    · by_cases h2 : n = 0
      · subst h2
        rw [Truncate_zero]
        refine ⟨fun hc => by simp at hc, fun hc => ?_⟩
        exfalso
        rcases hc with h | h | h
        · omega
        · omega
        · simp at h
          omega
      · rw [Truncate_pos_eval b n h1 h2]
        by_cases h3 : (b.off : Int) + n ≤ (b.Buf.cap : Int)
        · rw [if_pos h3]
          refine ⟨fun hc => by simp at hc, fun hc => ?_⟩
          exfalso
          rcases hc with h | h | h
          · omega
          · omega
          · rw [if_neg h2] at h
            omega
        · rw [if_neg h3]
          refine ⟨fun _ => ?_, fun _ => rfl⟩
          right
          right
          rw [if_neg h2]
          omega
  · intro b1 hb1
    by_cases h2 : n = 0
    · subst h2
      rw [Truncate_zero] at hb1
      injection hb1 with hb1
      rw [← hb1]
      refine ⟨by simp, ?_, rfl, rfl, rfl⟩
      show (0 : Nat) = (if (0 : Int) = 0 then 0 else b.off) + (0 : Int).toNat
      simp
    · by_cases h1 : n < 0 ∨ n > (b.Buf.len : Int)
      · have heval : Buffer.Truncate b n = none := by
          simp only [Buffer.Truncate]
          rw [if_pos h1]
        rw [heval] at hb1
        exact absurd hb1 (by simp)
      · rw [Truncate_pos_eval b n h1 h2] at hb1
        by_cases h3 : (b.off : Int) + n ≤ (b.Buf.cap : Int)
        · rw [if_pos h3] at hb1
          injection hb1 with hb1
          rw [← hb1]
          exact ⟨by simp [h2], by simp [h2], rfl, rfl, rfl⟩
        · rw [if_neg h3] at hb1
          exact absurd hb1 (by simp)

/-- Witness for C6 (amended) at `Truncate 8` of `c6buf`. -/
theorem c6_witness :
    Buffer.Truncate c6buf 8 = some c6buf8 ∧
    (c6buf8.off = (if (8 : Int) = 0 then 0 else c6buf.off) ∧
     c6buf8.Buf.len = (if (8 : Int) = 0 then 0 else c6buf.off) + (8 : Int).toNat ∧
     c6buf8.Buf.data = c6buf.Buf.data ∧ c6buf8.Buf.isNil = c6buf.Buf.isNil ∧
     c6buf8.ending = c6buf.ending) :=
  ⟨by decide, (c6_truncate_characterization c6buf 8).2 c6buf8 (by decide)⟩

/-! ### Claim C7: a released buffer is re-acquired with Len = capacity -/

/-- C7 (code bug): release a fully drained capacity-4 buffer, then acquire
with the estimator mean at 4: the very same buffer comes back with
`Len() = 4` — its full capacity of stale bytes (`pending` exposes them) —
instead of the `Len() = 0` (no valid data) that the spec prescribes and
that `Put`'s own comment intends; `Put` also assigns a field `el.end` that
buffer.go's `Buffer` does not declare. -/
theorem c7_stale_reacquire :
    ((BytePool.Put c7gX tp1024 c7el).bind fun gt =>
      (BytePool.Get gt.1 gt.2).map fun r => (r.2.Len, r.2.Buf.cap, r.2.pending))
      = some ((4 : Int), 4, [9, 9, 9, 9]) := by
  have hgi : goInt c7gX.avg.Current = 4 := by
    show goInt (4 : ℚ) = 4
    norm_num [goInt]
  rw [c7_put, Option.some_bind,
    @Get_pop c7gX c7tpAfter 2 [c7el1] c7el1 (by rw [hgi]; decide) (by rw [hgi]; decide)
      (by decide) (by decide) (by decide), Option.map_some']
  decide
